import Mathlib

/-!
Verification of the PA-SSH-prep staged-upgrade orchestrator.

Shallow embedding of `src/panos_upgrade.py`, `src/ssh_client.py` and the
phase-4 orchestration of `src/main.py`.  Each definition carries a note of
the source lines it models.  General conventions:

* Python `int` components of versions are `Nat` (they come from `\d+`).
* A Python function that can raise is embedded with `Option`/an explicit
  error constructor; the exception itself carries no data we need.
* Real time is discretized: a polling loop advances its clock by the sleep
  it performs per iteration (plus, for the SSH waiter, an arbitrary
  per-attempt probe duration supplied by the environment).  Loops are
  written with fuel returning `Option`; `none` marks fuel exhaustion and is
  proved unreachable for the fuel each top-level wrapper passes.
-/

namespace PASSH

/-- PAN-OS version triple, `src/panos_upgrade.py` lines 29–35.  The Python
dataclass also stores `original` (the trimmed input text); it is never read
by comparisons or by the path planner (`__lt__`/`__le__`/`__eq__`/`__ge__`
compare the numeric triple only), so it is omitted here. -/
structure Version where
  major : Nat
  minor : Nat
  patch : Nat
deriving DecidableEq

/-- Tuple comparison `(major, minor, patch) < ...`, lines 65–66. -/
def Version.lt (a b : Version) : Prop :=
  a.major < b.major ∨
    (a.major = b.major ∧
      (a.minor < b.minor ∨ (a.minor = b.minor ∧ a.patch < b.patch)))

instance (a b : Version) : Decidable (a.lt b) := by
  unfold Version.lt; exact inferInstance

/-- Tuple comparison `(major, minor, patch) <= ...`, lines 68–69. -/
def Version.le (a b : Version) : Prop :=
  a.lt b ∨ a = b

instance (a b : Version) : Decidable (a.le b) := by
  unfold Version.le; exact inferInstance

/-- Whitespace characters removed by Python `str.strip()` (ASCII range). -/
def isPySpace (c : Char) : Bool :=
  c = ' ' || c = '\t' || c = '\n' || c = '\r' || c = '\x0b' || c = '\x0c'

/-- Python `version_str.strip()`: drop whitespace from both ends. -/
def pyStrip (l : List Char) : List Char :=
  ((l.dropWhile isPySpace).reverse.dropWhile isPySpace).reverse

/-- `re.sub(r'-h\d+$', '', s)`, line 41: remove one trailing hotfix suffix
`-h<digits>` (at least one digit) if present.  Anchored at the end, so at
most one occurrence can be removed. -/
def stripHotfix (l : List Char) : List Char :=
  match l.reverse.dropWhile Char.isDigit, l.reverse.takeWhile Char.isDigit with
  | 'h' :: '-' :: rem, _ :: _ => rem.reverse
  | _, _ => l

/-- Numeric value of a decimal digit character. -/
def digitVal (c : Char) : Nat := c.toNat - '0'.toNat

/-- Value of a run of decimal digit characters, most significant first. -/
def digitsToNat (l : List Char) : Nat :=
  l.foldl (fun acc c => acc * 10 + digitVal c) 0

/-- Greedy `\d+`: consume a nonempty maximal digit run, returning its value
and the rest of the input; fail when the input does not start with a digit. -/
def takeNat (l : List Char) : Option (Nat × List Char) :=
  let ds := l.takeWhile Char.isDigit
  if ds = [] then none else some (digitsToNat ds, l.dropWhile Char.isDigit)

/-- The literal `\.` of the version regex: consume one leading dot.
Greedy matching of the preceding `\d+` needs no backtracking: a shorter
digit run would be followed by a digit, never by the literal dot. -/
def expectDot (l : List Char) : Option (List Char) :=
  match l with
  | d :: rest => if d = '.' then some rest else none
  | [] => none

/-- `re.match(r'^(\d+)\.(\d+)\.(\d+)', s)`, line 43, continued: three
dot-separated digit runs anchored at the start; whatever follows the third
run is ignored. -/
def matchVersionTriple (l : List Char) : Option (Nat × Nat × Nat) :=
  match takeNat l with
  | none => none
  | some (a, l1) =>
    match expectDot l1 with
    | none => none
    | some l2 =>
      match takeNat l2 with
      | none => none
      | some (b, l3) =>
        match expectDot l3 with
        | none => none
        | some l4 =>
          match takeNat l4 with
          | none => none
          | some (c, _) => some (a, b, c)

/-- `Version.parse`, lines 37–52: strip whitespace, strip one trailing
hotfix suffix, then match the anchored triple.  `none` models the
`ValueError("Invalid version format: ...")` raise. -/
def Version.parse (s : String) : Option Version :=
  match matchVersionTriple (stripHotfix (pyStrip s.toList)) with
  | none => none
  | some (a, b, c) => some ⟨a, b, c⟩

/-- `major_minor`, lines 57–59.  The source formats the pair as the string
`"{major}.{minor}"`; decimal rendering of the pair is injective (digits
contain no dot), so the pair itself is a faithful stand-in for the string
used as dictionary key and in train comparisons. -/
def Version.majorMinor (v : Version) : Nat × Nat := (v.major, v.minor)

/-- `base_version`, lines 61–63: the string `"{major}.{minor}.0"`. -/
def Version.baseVersion (v : Version) : String :=
  Nat.repr v.major ++ "." ++ Nat.repr v.minor ++ ".0"

/-- The `UPGRADE_PATHS` dict, lines 17–26, keyed by the `major.minor` pair
(see `Version.majorMinor` for why the string key is modeled as a pair).
Values are kept as the literal version strings of the source and are parsed
by the planner exactly where the source parses them. -/
def lookupUpgradePath (mm : Nat × Nat) : Option String :=
  if mm = (9, 0) then some ("9.1.0")
  else if mm = (9, 1) then some ("10.0.0")
  else if mm = (10, 0) then some ("10.1.0")
  else if mm = (10, 1) then some ("10.2.0")
  else if mm = (10, 2) then some ("11.0.0")
  else if mm = (11, 0) then some ("11.1.0")
  else if mm = (11, 1) then some ("11.2.0")
  else if mm = (11, 2) then some ("12.1.2")
  else none

/-- Position of a train in the upgrade chain: how many mapped hops can
still be taken from it.  Strictly decreases along `lookupUpgradePath`
steps, which bounds the planner's loop. -/
def trainRank (mm : Nat × Nat) : Nat :=
  if mm = (9, 0) then 8
  else if mm = (9, 1) then 7
  else if mm = (10, 0) then 6
  else if mm = (10, 1) then 5
  else if mm = (10, 2) then 4
  else if mm = (11, 0) then 3
  else if mm = (11, 1) then 2
  else if mm = (11, 2) then 1
  else 0

/-- The `while working_version < target` loop of `get_upgrade_path`, lines
97–124.  The source accumulates version strings; every appended string is
the decimal rendering of the `Version` appended here (`next_base` parses to
`next_version`, and `str(target)` renders `target`), so the path is modeled
at the `Version` level.  `none` from the inner parse models the
`ValueError` a malformed map value would raise (unreachable for the
concrete map).  Fuel exhaustion also yields `none`; `pathLoop_ne_none`
proves the fuel used by `get_upgrade_path` is never exhausted. -/
def pathLoop (target : Version) : Nat → Version → Option (List Version)
  | 0, _ => none
  | fuel + 1, working =>
    if working.lt target then
      match lookupUpgradePath working.majorMinor with
      | some nextBase =>
        match Version.parse nextBase with
        | none => none
        | some nextVersion =>
          if nextVersion.majorMinor = target.majorMinor then some [target]
          else if nextVersion.le target then
            (pathLoop target fuel nextVersion).map (fun rest => nextVersion :: rest)
          else some [target]
      | none => some [target]
    else some []

/-- `get_upgrade_path`, lines 80–124: parse both versions (a parse failure
raises out of the function, modeled as `none`), return `[]` when already at
or past the target, otherwise run the planning loop.  Fuel 9 exceeds every
`trainRank`, so the loop semantics are those of the unbounded source loop
(`pathLoop_ne_none`). -/
def get_upgrade_path (current_version target_version : String) : Option (List Version) :=
  match Version.parse current_version, Version.parse target_version with
  | some current, some target =>
    if target.le current then some [] else pathLoop target 9 current
  | _, _ => none

/-- `PANOSUpgrader.download_software`, lines 182–203, as the ordered list
of `_download_version(version, timeout)` calls it issues: for a non-zero
patch, first the train's `base_version()` with `timeout // 2`, then the
requested version string with the full budget.  Each call may raise,
aborting the remainder; the list is the sequence attempted in order.
`none` models the `ValueError` from parsing the argument. -/
def download_software (version : String) (timeout : Nat) : Option (List (String × Nat)) :=
  match Version.parse version with
  | none => none
  | some ver =>
    if ver.patch ≠ 0 then
      some [(ver.baseVersion, timeout / 2), (version, timeout)]
    else
      some [(version, timeout)]

/-- ASCII lowering of one character, modeling Python `str.lower()` on the
device output (the substrings compared against are ASCII). -/
def lowerChar (c : Char) : Char :=
  if 'A' ≤ c ∧ c ≤ 'Z' then Char.ofNat (c.toNat + 32) else c

/-- `status.lower()` over the character list of the output. -/
def toLowerL (l : List Char) : List Char := l.map lowerChar

/-- Executable check that `pre` is a prefix of the second list. -/
def isPrefixB : List Char → List Char → Bool
  | [], _ => true
  | _ :: _, [] => false
  | a :: as, b :: bs => a = b && isPrefixB as bs

/-- Executable check for Python's `needle in hay` substring containment:
`needle` occurs contiguously somewhere in `hay`. -/
def isInfixB (needle : List Char) : List Char → Bool
  | [] => needle.isEmpty
  | c :: rest => isPrefixB needle (c :: rest) || isInfixB needle rest

/-- Outcome of one `send_command` status fetch: the returned text, or the
command raising (transport failure). -/
inductive PollResult where
  | ok (status : List Char)
  | raised
deriving DecidableEq

/-- Terminal outcome of a polling waiter. -/
inductive JobOutcome where
  | completed
  | jobFailed
  | transportRaised
  | timedOut
deriving DecidableEq

/-- One line of `request system software info` output counts as download
complete, lines 245–248: it contains the version and, lower-cased, `yes`
or `downloaded`. -/
def downloadCompleteLine (version line : List Char) : Bool :=
  isInfixB version line &&
    (isInfixB "yes".toList (toLowerL line) ||
      isInfixB "downloaded".toList (toLowerL line))

/-- The completion check of `_wait_for_software_download`, lines 242–248:
the version occurs in the status and some newline-separated line passes
`downloadCompleteLine`. -/
def downloadComplete (version status : List Char) : Bool :=
  isInfixB version status &&
    (status.splitOn '\n').any (downloadCompleteLine version)

/-- `"failed" in status.lower()`, line 256 (and line 310). -/
def failedCheck (status : List Char) : Bool :=
  isInfixB "failed".toList (toLowerL status)

/-- Loop body of `_wait_for_software_download`, lines 233–259.  Iteration
`k` is entered when `30 * k < timeout` (the clock advances by the 30 s
`poll_interval` sleep per iteration; the `downloading NN%` progress report
of lines 251–254 has no control effect and is not modeled).  A raising
status fetch propagates (no handler in this waiter).  Returns the outcome
with the number of status polls issued; `none` is fuel exhaustion, proved
unreachable for the wrapper's fuel in `waitDownloadAux_ne_none`. -/
def waitDownloadAux (version : List Char) (timeout : Nat) (env : Nat → PollResult) :
    Nat → Nat → Option (JobOutcome × Nat)
  | 0, _ => none
  | fuel + 1, k =>
    if 30 * k < timeout then
      match env k with
      | .raised => some (.transportRaised, k + 1)
      | .ok status =>
        if downloadComplete version status then some (.completed, k + 1)
        else if failedCheck status then some (.jobFailed, k + 1)
        else waitDownloadAux version timeout env fuel (k + 1)
    else some (.timedOut, k)

/-- `_wait_for_software_download`, lines 228–259, with enough fuel for
every iteration the time bound admits. -/
def wait_for_software_download (version : List Char) (timeout : Nat)
    (env : Nat → PollResult) : Option (JobOutcome × Nat) :=
  waitDownloadAux version timeout env (timeout / 30 + 1) 0

/-- Completion check of `_wait_for_software_install`, line 301:
`"installed" in status.lower() and version in status`. -/
def installComplete (version status : List Char) : Bool :=
  isInfixB "installed".toList (toLowerL status) && isInfixB version status

/-- In-progress check of `_wait_for_software_install`, line 306. -/
def installInProgress (status : List Char) : Bool :=
  isInfixB "running".toList (toLowerL status) ||
    isInfixB "pending".toList (toLowerL status)

/-- Loop body of `_wait_for_software_install`, lines 291–317.  The whole
status check runs inside `try ... except Exception: continue` (lines
297–315), so a raising fetch becomes another iteration — and so does the
`RuntimeError` raised by the `failed` branch at line 311, which is caught
by the same handler at line 313.  Time model as in `waitDownloadAux`. -/
def waitInstallAux (version : List Char) (timeout : Nat) (env : Nat → PollResult) :
    Nat → Nat → Option (JobOutcome × Nat)
  | 0, _ => none
  | fuel + 1, k =>
    if 30 * k < timeout then
      match env k with
      | .raised => waitInstallAux version timeout env fuel (k + 1)
      | .ok status =>
        if installComplete version status then some (.completed, k + 1)
        else if installInProgress status then waitInstallAux version timeout env fuel (k + 1)
        else if failedCheck status then waitInstallAux version timeout env fuel (k + 1)
        else waitInstallAux version timeout env fuel (k + 1)
    else some (.timedOut, k)

/-- `_wait_for_software_install`, lines 286–317, with enough fuel for every
iteration the time bound admits. -/
def wait_for_software_install (version : List Char) (timeout : Nat)
    (env : Nat → PollResult) : Option (JobOutcome × Nat) :=
  waitInstallAux version timeout env (timeout / 30 + 1) 0

/-- One attempt of `wait_for_ssh`, lines 258–295: the TCP connect probe
(`tcpOk` is `connect_ex` returning 0 without a socket exception), then the
authenticated session with its `show clock` liveness command (`sshOk` is
all of connect, command, disconnect succeeding).  `dur` is the wall time
the probe itself consumes beyond the poll sleep. -/
structure SshAttempt where
  tcpOk : Bool
  sshOk : Bool
  dur : Nat

/-- An attempt fully succeeds when both layers succeed, line 284–291. -/
def SshAttempt.success (a : SshAttempt) : Bool := a.tcpOk && a.sshOk

/-- The `while (time.time() - start_time) < timeout` loop of
`wait_for_ssh`, lines 258–298.  On any failure the loop sleeps
`poll_interval` and retries; on full success it returns immediately.  The
clock advances by the attempt's probe duration plus the poll sleep per
failed attempt.  Returns the boolean result with the number of attempts
probed; `none` is fuel exhaustion, unreachable for the wrapper's fuel when
the poll interval is positive (`waitSshAux_spec`). -/
def waitSshAux (timeout poll : Int) : Nat → (Nat → SshAttempt) → Int → Option (Bool × Nat)
  | 0, _, _ => none
  | fuel + 1, env, elapsed =>
    if elapsed < timeout then
      if (env 0).success then some (true, 1)
      else
        match waitSshAux timeout poll fuel (fun n => env (n + 1))
            (elapsed + ((env 0).dur : Int) + poll) with
        | none => none
        | some r => some (r.1, r.2 + 1)
    else some (false, 0)

/-- `wait_for_ssh`, lines 229–298, over an environment of attempt
outcomes.  The host/credentials do not influence control flow and are
dropped.  Fuel `timeout.toNat + 1` covers every iteration because each
failed attempt advances the clock by at least the (positive) poll
interval. -/
def wait_for_ssh (env : Nat → SshAttempt) (timeout poll : Int) : Option (Bool × Nat) :=
  waitSshAux timeout poll (timeout.toNat + 1) env 0

/-- `PANOSUpgrader.wait_for_reboot`, lines 336–365: a fixed
`time.sleep(60)` settle delay (line 349), then `wait_for_ssh` with budget
`timeout - 60` and poll interval 30 (lines 351–358).  The boolean result is
returned unchanged (lines 360–365). -/
def wait_for_reboot (env : Nat → SshAttempt) (timeout : Int) : Option (Bool × Nat) :=
  wait_for_ssh env (timeout - 60) 30

/-- Cumulative clock advance of the first `k` (all failed) SSH attempts:
probe duration plus one poll sleep each. -/
def preElapsed (poll : Int) : Nat → (Nat → SshAttempt) → Int
  | 0, _ => 0
  | k + 1, env => ((env 0).dur : Int) + poll + preElapsed poll k (fun n => env (n + 1))

/-- Outcome of one side-effecting operation against the device: it returns
normally or raises. -/
inductive OpResult where
  | ok
  | raise
deriving DecidableEq

/-- Environment for a run of `upgrade_to_version` / `_phase4_upgrade`: the
outcome of the n-th occurrence of each operation kind.  `versionR` is
`get_current_version` (`none` = the query raised, `some s` = it returned
the string `s`); `rebootWaitR` is the boolean result of `wait_for_reboot`;
`cancelledR` is `is_cancelled()` (only consulted by phase 4). -/
structure DeviceEnv where
  connectR : Nat → OpResult
  versionR : Nat → Option String
  checkR : Nat → OpResult
  downloadR : Nat → OpResult
  installR : Nat → OpResult
  rebootWaitR : Nat → Bool
  cancelledR : Nat → Bool

/-- Run state: occurrence counters for each operation kind plus whether a
session is currently live.  `connect` (lines 149–153) sets the session
live only when `client.connect()` returns (on a raise no transport session
was established); `reboot` (lines 319–334) suppresses transport errors and
always ends with `self.disconnect()`. -/
structure RunState where
  conns : Nat
  vers : Nat
  checks : Nat
  downs : Nat
  insts : Nat
  waits : Nat
  cancels : Nat
  sessionLive : Bool
deriving DecidableEq

/-- Initial run state: no operations performed, no session. -/
def initState : RunState := ⟨0, 0, 0, 0, 0, 0, 0, false⟩

/-- Result of a `try`-block body: a normal return value, or an exception
escaping to the enclosing handler. -/
inductive BodyResult where
  | ok (b : Bool)
  | exn
deriving DecidableEq

/-- The per-hop loop of `upgrade_to_version`, lines 395–420: for each hop
check availability, download, install, reboot (which disconnects), wait for
reboot (a `false` raises at line 412), reconnect, and read the version back
(a mismatch at lines 418–420 only logs a warning).  After the last hop the
method reports success (lines 422–423). -/
def upgradeHops (env : DeviceEnv) : List Version → RunState → BodyResult × RunState
  | [], st => (.ok true, st)
  | _ :: rest, st =>
    match env.checkR st.checks with
    | .raise => (.exn, { st with checks := st.checks + 1 })
    | .ok =>
      let st := { st with checks := st.checks + 1 }
      match env.downloadR st.downs with
      | .raise => (.exn, { st with downs := st.downs + 1 })
      | .ok =>
        let st := { st with downs := st.downs + 1 }
        match env.installR st.insts with
        | .raise => (.exn, { st with insts := st.insts + 1 })
        | .ok =>
          let st := { st with insts := st.insts + 1 }
          let st := { st with sessionLive := false }
          let w := env.rebootWaitR st.waits
          let st := { st with waits := st.waits + 1 }
          if w then
            match env.connectR st.conns with
            | .raise => (.exn, { st with conns := st.conns + 1 })
            | .ok =>
              let st := { st with conns := st.conns + 1, sessionLive := true }
              match env.versionR st.vers with
              | none => (.exn, { st with vers := st.vers + 1 })
              | some _ => upgradeHops env rest { st with vers := st.vers + 1 }
          else (.exn, st)

/-- The `try` body of `upgrade_to_version`, lines 382–423: connect, read
the current version, plan the path (a `ValueError` from parsing raises
into the handler), return `True` on an empty path, otherwise run the
hops. -/
def upgradeBody (env : DeviceEnv) (target : String) : BodyResult × RunState :=
  match env.connectR initState.conns with
  | .raise => (.exn, { initState with conns := 1 })
  | .ok =>
    let st := { initState with conns := 1, sessionLive := true }
    match env.versionR st.vers with
    | none => (.exn, { st with vers := st.vers + 1 })
    | some current =>
      let st := { st with vers := st.vers + 1 }
      match get_upgrade_path current target with
      | none => (.exn, st)
      | some [] => (.ok true, st)
      | some path => upgradeHops env path st

/-- `upgrade_to_version`, lines 367–430: the body above inside
`try ... except Exception: return False ... finally: self.disconnect()`.
The `finally` releases the session on every path (`PANOSSSHClient.disconnect`
itself swallows errors, `src/ssh_client.py` lines 59–68), and every
escaping exception becomes the return value `False`. -/
def upgrade_to_version (env : DeviceEnv) (target : String) : Bool × RunState :=
  match upgradeBody env target with
  | (.ok b, st) => (b, { st with sessionLive := false })
  | (.exn, st) => (false, { st with sessionLive := false })

/-- The per-hop loop of `_phase4_upgrade`, `src/main.py` lines 306–337:
cancellation check (disconnect and return `False` when set), check
availability, download, install, reboot, wait for reboot (a `false` raises
at line 334), reconnect.  After the loop the final version is read and the
session disconnected (lines 340–344). -/
def phase4Hops (env : DeviceEnv) : List Version → RunState → BodyResult × RunState
  | [], st =>
    match env.versionR st.vers with
    | none => (.exn, { st with vers := st.vers + 1 })
    | some _ => (.ok true, { st with vers := st.vers + 1, sessionLive := false })
  | _ :: rest, st =>
    let c := env.cancelledR st.cancels
    let st := { st with cancels := st.cancels + 1 }
    if c then (.ok false, { st with sessionLive := false })
    else
      match env.checkR st.checks with
      | .raise => (.exn, { st with checks := st.checks + 1 })
      | .ok =>
        let st := { st with checks := st.checks + 1 }
        match env.downloadR st.downs with
        | .raise => (.exn, { st with downs := st.downs + 1 })
        | .ok =>
          let st := { st with downs := st.downs + 1 }
          match env.installR st.insts with
          | .raise => (.exn, { st with insts := st.insts + 1 })
          | .ok =>
            let st := { st with insts := st.insts + 1 }
            let st := { st with sessionLive := false }
            let w := env.rebootWaitR st.waits
            let st := { st with waits := st.waits + 1 }
            if w then
              match env.connectR st.conns with
              | .raise => (.exn, { st with conns := st.conns + 1 })
              | .ok =>
                phase4Hops env rest { st with conns := st.conns + 1, sessionLive := true }
            else (.exn, st)

/-- The `try` body of `_phase4_upgrade`, `src/main.py` lines 280–344:
construct the upgrader, connect, read the current version, plan the path
(`get_upgrade_path` imported from the upgrade module), disconnect and
return `True` on an empty path, otherwise run the hops. -/
def phase4Body (env : DeviceEnv) (target : String) : BodyResult × RunState :=
  match env.connectR initState.conns with
  | .raise => (.exn, { initState with conns := 1 })
  | .ok =>
    let st := { initState with conns := 1, sessionLive := true }
    match env.versionR st.vers with
    | none => (.exn, { st with vers := st.vers + 1 })
    | some current =>
      let st := { st with vers := st.vers + 1 }
      match get_upgrade_path current target with
      | none => (.exn, st)
      | some [] => (.ok true, { st with sessionLive := false })
      | some path => phase4Hops env path st

/-- `_phase4_upgrade`, `src/main.py` lines 271–353: the body inside
`try ... except Exception: ... return False` — with no `finally`, so the
handler leaves the session exactly as the body left it. -/
def phase4_upgrade (env : DeviceEnv) (target : String) : Bool × RunState :=
  match phase4Body env target with
  | (.ok b, st) => (b, st)
  | (.exn, st) => (false, st)

/-- Declarative reading of "begins with three dot-separated all-digit
components": the list decomposes as a nonempty digit run, a dot, a nonempty
digit run, a dot, a nonempty digit run, and an arbitrary remainder.  Stated
independently of the greedy matcher so that the equivalence with
`matchVersionTriple` is a real parser-correctness fact. -/
def StartsWithTriple (l : List Char) : Prop :=
  ∃ a b c rest, a ≠ [] ∧ b ≠ [] ∧ c ≠ [] ∧
    (∀ ch ∈ a, ch.isDigit = true) ∧ (∀ ch ∈ b, ch.isDigit = true) ∧
    (∀ ch ∈ c, ch.isDigit = true) ∧
    l = a ++ '.' :: (b ++ '.' :: (c ++ rest))

/-- Test environment: phase 4 connects, reads `11.0.0`, and the first
firmware download raises mid-hop. -/
def leakEnv : DeviceEnv where
  connectR := fun _ => .ok
  versionR := fun _ => some ("11.0.0")
  checkR := fun _ => .ok
  downloadR := fun _ => .raise
  installR := fun _ => .ok
  rebootWaitR := fun _ => true
  cancelledR := fun _ => false

/-- Test environment: `upgrade_to_version` connects, reads `11.0.0`, and
the first install raises mid-hop. -/
def failEnv : DeviceEnv where
  connectR := fun _ => .ok
  versionR := fun _ => some ("11.0.0")
  checkR := fun _ => .ok
  downloadR := fun _ => .ok
  installR := fun _ => .raise
  rebootWaitR := fun _ => true
  cancelledR := fun _ => false

/-! ## Supporting lemmas -/

/-- Sanity of the embedding against the repository's own unit tests
(`tests/test_panos_upgrade.py`): parses, rejections, and concrete paths. -/
theorem model_sanity_checks :
    Version.parse ("10.2.4") = some ⟨10, 2, 4⟩ ∧
    Version.parse ("11.2.10-h2") = some ⟨11, 2, 10⟩ ∧
    Version.parse ("  10.1.0  ") = some ⟨10, 1, 0⟩ ∧
    Version.parse ("invalid") = none ∧
    Version.parse ("10.2") = none ∧
    Version.parse ("") = none ∧
    get_upgrade_path ("11.2.4") ("11.2.4") = some [] ∧
    get_upgrade_path ("10.2.0") ("10.2.4") = some [⟨10, 2, 4⟩] ∧
    get_upgrade_path ("8.1.0") ("8.1.5") = some [⟨8, 1, 5⟩] ∧
    get_upgrade_path ("9.1.0") ("11.2.4") =
      some [⟨10, 0, 0⟩, ⟨10, 1, 0⟩, ⟨10, 2, 0⟩, ⟨11, 0, 0⟩, ⟨11, 1, 0⟩, ⟨11, 2, 4⟩] ∧
    download_software ("11.2.0") 1800 = some [("11.2.0", 1800)] := by
  decide

/-- Totality of the tuple order: failing `current >= target` (line 94) is
the same as `current < target`, the guard of the planning loop. -/
theorem version_not_le_iff (a b : Version) : ¬ a.le b ↔ b.lt a := by
  obtain ⟨a1, a2, a3⟩ := a
  obtain ⟨b1, b2, b3⟩ := b
  simp only [Version.le, Version.lt, Version.mk.injEq]
  omega

/-- Every successful map lookup advances: the mapped base parses, is
strictly above every version of the source train, and its train sits
strictly later in the chain. -/
theorem lookup_next (w : Version) (nb : String)
    (hl : lookupUpgradePath w.majorMinor = some nb) :
    ∃ nv, Version.parse nb = some nv ∧ w.lt nv ∧
      trainRank nv.majorMinor < trainRank w.majorMinor := by
  unfold lookupUpgradePath at hl
  split_ifs at hl with h1 h2 h3 h4 h5 h6 h7 h8
  · injection hl with hnb; subst hnb
    refine ⟨⟨9, 1, 0⟩, by decide, ?_, ?_⟩
    · have hma : w.major = 9 := congrArg Prod.fst h1
      have hmi : w.minor = 0 := congrArg Prod.snd h1
      simp only [Version.lt]; omega
    · rw [h1]; decide
  · injection hl with hnb; subst hnb
    refine ⟨⟨10, 0, 0⟩, by decide, ?_, ?_⟩
    · have hma : w.major = 9 := congrArg Prod.fst h2
      have hmi : w.minor = 1 := congrArg Prod.snd h2
      simp only [Version.lt]; omega
    · rw [h2]; decide
  · injection hl with hnb; subst hnb
    refine ⟨⟨10, 1, 0⟩, by decide, ?_, ?_⟩
    · have hma : w.major = 10 := congrArg Prod.fst h3
      have hmi : w.minor = 0 := congrArg Prod.snd h3
      simp only [Version.lt]; omega
    · rw [h3]; decide
  · injection hl with hnb; subst hnb
    refine ⟨⟨10, 2, 0⟩, by decide, ?_, ?_⟩
    · have hma : w.major = 10 := congrArg Prod.fst h4
      have hmi : w.minor = 1 := congrArg Prod.snd h4
      simp only [Version.lt]; omega
    · rw [h4]; decide
  · injection hl with hnb; subst hnb
    refine ⟨⟨11, 0, 0⟩, by decide, ?_, ?_⟩
    · have hma : w.major = 10 := congrArg Prod.fst h5
      have hmi : w.minor = 2 := congrArg Prod.snd h5
      simp only [Version.lt]; omega
    · rw [h5]; decide
  · injection hl with hnb; subst hnb
    refine ⟨⟨11, 1, 0⟩, by decide, ?_, ?_⟩
    · have hma : w.major = 11 := congrArg Prod.fst h6
      have hmi : w.minor = 0 := congrArg Prod.snd h6
      simp only [Version.lt]; omega
    · rw [h6]; decide
  · injection hl with hnb; subst hnb
    refine ⟨⟨11, 2, 0⟩, by decide, ?_, ?_⟩
    · have hma : w.major = 11 := congrArg Prod.fst h7
      have hmi : w.minor = 1 := congrArg Prod.snd h7
      simp only [Version.lt]; omega
    · rw [h7]; decide
  · injection hl with hnb; subst hnb
    refine ⟨⟨12, 1, 2⟩, by decide, ?_, ?_⟩
    · have hma : w.major = 11 := congrArg Prod.fst h8
      have hmi : w.minor = 2 := congrArg Prod.snd h8
      simp only [Version.lt]; omega
    · rw [h8]; decide

/-- The planning loop never exhausts fuel exceeding the working train's
rank: the fuel of `get_upgrade_path` models the unbounded source loop. -/
theorem pathLoop_ne_none (target : Version) :
    ∀ fuel w, trainRank w.majorMinor < fuel → pathLoop target fuel w ≠ none := by
  intro fuel
  induction fuel with
  | zero => intro w h; exact absurd h (Nat.not_lt_zero _)
  | succ fuel ih =>
    intro w h
    by_cases hw : w.lt target
    · simp only [pathLoop, if_pos hw]
      rcases hl : lookupUpgradePath w.majorMinor with _ | nb
      · simp
      · obtain ⟨nv, hp, _, hrank⟩ := lookup_next w nb hl
        simp only [hp]
        by_cases hmm : nv.majorMinor = target.majorMinor
        · simp [hmm]
        · rw [if_neg hmm]
          by_cases hle : nv.le target
          · rw [if_pos hle]
            have hnv : pathLoop target fuel nv ≠ none := ih nv (by omega)
            rcases hrec : pathLoop target fuel nv with _ | rest
            · exact absurd hrec hnv
            · simp
          · simp [hle]
    · simp [pathLoop, if_neg hw]

/-- Chain invariant of the planning loop: starting strictly below the
target, every produced hop strictly exceeds its predecessor (and the first
strictly exceeds the working version). -/
theorem pathLoop_chain (target : Version) :
    ∀ fuel w l, w.lt target → pathLoop target fuel w = some l →
      List.Chain' Version.lt (w :: l) := by
  intro fuel
  induction fuel with
  | zero => intro w l _ h; exact Option.noConfusion h
  | succ fuel ih =>
    intro w l hw hres
    simp only [pathLoop, if_pos hw] at hres
    rcases hl : lookupUpgradePath w.majorMinor with _ | nb
    · rw [hl] at hres
      injection hres with hres'
      subst hres'
      simp [List.chain'_cons, hw]
    · rw [hl] at hres
      obtain ⟨nv, hp, hwlt, _⟩ := lookup_next w nb hl
      simp only [hp] at hres
      by_cases hmm : nv.majorMinor = target.majorMinor
      · rw [if_pos hmm] at hres
        injection hres with hres'
        subst hres'
        simp [List.chain'_cons, hw]
      · rw [if_neg hmm] at hres
        by_cases hle : nv.le target
        · rw [if_pos hle] at hres
          rcases hrec : pathLoop target fuel nv with _ | rest
          · rw [hrec] at hres; exact Option.noConfusion hres
          · rw [hrec] at hres
            simp only [Option.map_some'] at hres
            injection hres with hres'
            subst hres'
            have hnvlt : nv.lt target := by
              rcases hle with hlt | heq
              · exact hlt
              · exact absurd (congrArg Version.majorMinor heq) hmm
            have := ih nv rest hnvlt hrec
            exact List.Chain'.cons hwlt this
        · rw [if_neg hle] at hres
          injection hres with hres'
          subst hres'
          simp [List.chain'_cons, hw]

/-- A planning loop entered strictly below the target never returns the
empty path: it produces at least one hop (or fails). -/
theorem pathLoop_ne_empty (target : Version) (fuel : Nat) (w : Version)
    (hw : w.lt target) : pathLoop target fuel w ≠ some [] := by
  cases fuel with
  | zero => simp [pathLoop]
  | succ fuel =>
    simp only [pathLoop, if_pos hw]
    rcases hl : lookupUpgradePath w.majorMinor with _ | nb
    · simp
    · rcases hpn : Version.parse nb with _ | nv
      · simp [hpn]
      · simp only [hpn]
        by_cases hmm : nv.majorMinor = target.majorMinor
        · simp [hmm]
        · rw [if_neg hmm]
          by_cases hle : nv.le target
          · rw [if_pos hle]
            rcases hrec : pathLoop target fuel nv with _ | rest <;> simp [hrec]
          · simp [hle]

/-! ## Claim theorems -/

/-- C1 counterexample: for current `11.2.4` and target `12.1.4` the planner
returns the single hop `12.1.4`, not the two-hop path `12.1.2, 12.1.4`
demanded by the claim (whatever strings render these versions, the lengths
already differ). -/
theorem upgrade_path_12_1_counterexample :
    get_upgrade_path ("11.2.4") ("12.1.4") = some [⟨12, 1, 4⟩] ∧
      some [Version.mk 12 1 4] ≠
        some [Version.mk 12 1 2, Version.mk 12 1 4] := by
  exact ⟨by decide, by decide⟩

/-- C1 (amended): for current `11.2.4` and target `12.1.4` the planner
returns `[12.1.4]` — the forced 12.1-train base `12.1.2` shares the
target's major.minor, so the same-train branch (lines 109–111) skips the
intermediate base and appends the target directly. -/
theorem upgrade_path_12_1_skips_base :
    get_upgrade_path ("11.2.4") ("12.1.4") = some [⟨12, 1, 4⟩] := by
  decide

/-- C4: for every pair of parsable current and target versions, the
returned upgrade path is strictly increasing under the version order, with
its first element strictly above the current version. -/
theorem upgrade_path_strictly_increasing (c t : String) (vc vt : Version)
    (l : List Version) (hc : Version.parse c = some vc)
    (ht : Version.parse t = some vt) (hp : get_upgrade_path c t = some l) :
    List.Chain' Version.lt (vc :: l) := by
  unfold get_upgrade_path at hp
  simp only [hc, ht] at hp
  by_cases hle : vt.le vc
  · rw [if_pos hle] at hp
    injection hp with hp'
    subst hp'
    simp
  · rw [if_neg hle] at hp
    exact pathLoop_chain vt 9 vc l ((version_not_le_iff vt vc).mp hle) hp

/-- C4 witness: the longest concrete scenario of the spec, `9.1.0` to
`11.2.4`, instantiating every hypothesis. -/
theorem upgrade_path_strictly_increasing_witness :
    List.Chain' Version.lt
      [⟨9, 1, 0⟩, ⟨10, 0, 0⟩, ⟨10, 1, 0⟩, ⟨10, 2, 0⟩, ⟨11, 0, 0⟩, ⟨11, 1, 0⟩, ⟨11, 2, 4⟩] :=
  upgrade_path_strictly_increasing ("9.1.0") ("11.2.4") ⟨9, 1, 0⟩ ⟨11, 2, 4⟩
    [⟨10, 0, 0⟩, ⟨10, 1, 0⟩, ⟨10, 2, 0⟩, ⟨11, 0, 0⟩, ⟨11, 1, 0⟩, ⟨11, 2, 4⟩]
    (by decide) (by decide) (by decide)

/-- C5: for every pair of parsable versions, the planner returns the empty
path exactly when the current version is at or past the target under the
(major, minor, patch) order. -/
theorem upgrade_path_empty_iff (c t : String) (vc vt : Version)
    (hc : Version.parse c = some vc) (ht : Version.parse t = some vt) :
    (get_upgrade_path c t = some [] ↔ vt.le vc) := by
  unfold get_upgrade_path
  simp only [hc, ht]
  by_cases hle : vt.le vc
  · simp [hle]
  · rw [if_neg hle, iff_false_intro hle, iff_false]
    exact pathLoop_ne_empty vt 9 vc ((version_not_le_iff vt vc).mp hle)

/-- C5 witness: `11.2.5` is already past `11.2.4`, so the path is empty. -/
theorem upgrade_path_empty_iff_witness :
    get_upgrade_path ("11.2.5") ("11.2.4") = some [] :=
  (upgrade_path_empty_iff ("11.2.5") ("11.2.4") ⟨11, 2, 5⟩ ⟨11, 2, 4⟩
    (by decide) (by decide)).mpr (by decide)

/-- C8: for a parsable version with non-zero patch, `download_software`
issues the train's zero-patch base first with half the timeout budget and
then the requested version with the full budget; for a zero-patch version
only the requested download is issued. -/
theorem download_software_base_first (s : String) (t : Nat) (v : Version)
    (hv : Version.parse s = some v) :
    (v.patch ≠ 0 →
      download_software s t = some [(v.baseVersion, t / 2), (s, t)]) ∧
    (v.patch = 0 → download_software s t = some [(s, t)]) := by
  unfold download_software
  rw [hv]
  by_cases hp : v.patch = 0 <;> simp [hp]

/-- C8 witness: downloading `11.2.4` with the default 1800 s budget first
downloads base `11.2.0` with 900 s. -/
theorem download_software_base_first_witness :
    download_software ("11.2.4") 1800 =
      some [((Version.mk 11 2 4).baseVersion, 1800 / 2), ("11.2.4", 1800)] :=
  (download_software_base_first ("11.2.4") 1800 ⟨11, 2, 4⟩ (by decide)).1
    (by decide)

/-- The install waiter can only complete or time out: the `failed` branch
raise and any status-fetch exception are caught by its own handler. -/
theorem waitInstallAux_no_jobFailed (v : List Char) (t : Nat)
    (env : Nat → PollResult) :
    ∀ fuel k r, waitInstallAux v t env fuel k = some r →
      r.1 ≠ .jobFailed ∧ r.1 ≠ .transportRaised := by
  intro fuel
  induction fuel with
  | zero => intro k r h; exact Option.noConfusion h
  | succ fuel ih =>
    intro k r h
    simp only [waitInstallAux] at h
    by_cases ht : 30 * k < t
    · rw [if_pos ht] at h
      rcases he : env k with s | _
      · simp only [he] at h
        split_ifs at h with h1 h2 h3
        · injection h with h'
          subst h'
          exact ⟨by simp, by simp⟩
        · exact ih _ _ h
        · exact ih _ _ h
        · exact ih _ _ h
      · simp only [he] at h
        exact ih _ _ h
    · rw [if_neg ht] at h
      injection h with h'
      subst h'
      exact ⟨by simp, by simp⟩

/-- C2 counterexample: with every status poll returning
`installation failed` (classified failed, not complete, not in-progress)
and a 60 s budget, the install waiter does not raise a job-failed error
after the first poll — it polls a second time and ends in `timedOut`. -/
theorem install_waiter_swallows_failure :
    failedCheck ("installation failed".toList) = true ∧
    installComplete ("11.2.4".toList) ("installation failed".toList) = false ∧
    installInProgress ("installation failed".toList) = false ∧
    wait_for_software_install ("11.2.4".toList) 60
      (fun _ => .ok ("installation failed".toList)) = some (.timedOut, 2) := by
  exact ⟨by decide, by decide, by decide, by decide⟩

/-- C2 (amended): a status classified failed makes the software-download
waiter raise job-failed immediately, with no further poll; in the
software-install waiter the raise of line 311 is caught by its own handler
(line 313), so that waiter never surfaces a job-failed error and keeps
polling until completion or timeout. -/
theorem job_waiter_failed_handling :
    (∀ (v s : List Char) (timeout : Nat) (env : Nat → PollResult),
      0 < timeout → env 0 = .ok s → downloadComplete v s = false →
      failedCheck s = true →
      wait_for_software_download v timeout env = some (.jobFailed, 1)) ∧
    (∀ (v : List Char) (timeout : Nat) (env : Nat → PollResult)
      (r : JobOutcome × Nat),
      wait_for_software_install v timeout env = some r → r.1 ≠ .jobFailed) := by
  constructor
  · intro v s timeout env ht henv hdc hfc
    unfold wait_for_software_download
    simp only [waitDownloadAux]
    rw [if_pos (show 30 * 0 < timeout by omega)]
    simp [henv, hdc, hfc]
  · intro v timeout env r h
    exact (waitInstallAux_no_jobFailed v timeout env _ _ r h).1

/-- C2 witness: a first download status reading `download failed` yields
the job-failed outcome after exactly one poll, and the install waiter's
timed-out outcome above is indeed not job-failed. -/
theorem job_waiter_failed_handling_witness :
    wait_for_software_download ("11.2.4".toList) 60
      (fun _ => .ok ("download failed".toList)) = some (.jobFailed, 1) ∧
    ((JobOutcome.timedOut, 2) : JobOutcome × Nat).1 ≠ .jobFailed :=
  ⟨job_waiter_failed_handling.1 ("11.2.4".toList) ("download failed".toList) 60
      (fun _ => .ok ("download failed".toList)) (by decide) rfl (by decide)
      (by decide),
    job_waiter_failed_handling.2 ("11.2.4".toList) 60
      (fun _ => .ok ("installation failed".toList)) (.timedOut, 2) (by decide)⟩

/-- C3: evaluation at the failing input.  In phase 4, with the first
firmware download raising mid-hop (`leakEnv`), `_phase4_upgrade` returns
`False` through its `except` handler while the session opened for the
phase is still live — the phase has no `finally` releasing it, unlike
phases 1–3 and `upgrade_to_version`. -/
theorem phase4_leaks_session_on_exception :
    (phase4_upgrade leakEnv ("11.2.4")).1 = false ∧
    (phase4_upgrade leakEnv ("11.2.4")).2.sessionLive = true := by
  exact ⟨by decide, by decide⟩

/-- C6: `upgrade_to_version` converts every exception escaping its body to
the return value `False` (it returns `True` exactly when the body does),
and its `finally` leaves no live session behind on any path. -/
theorem upgrade_to_version_boolean_boundary (env : DeviceEnv) (target : String) :
    ((upgradeBody env target).1 = .exn → (upgrade_to_version env target).1 = false) ∧
    ((upgrade_to_version env target).1 = true ↔ (upgradeBody env target).1 = .ok true) ∧
    (upgrade_to_version env target).2.sessionLive = false := by
  unfold upgrade_to_version
  rcases h : upgradeBody env target with ⟨br, st⟩
  cases br with
  | ok b => cases b <;> simp
  | exn => simp

/-- C6 witness: with the first install raising (`failEnv`), the body ends
in an exception and the method returns `False`. -/
theorem upgrade_to_version_boolean_boundary_witness :
    (upgradeBody failEnv ("11.2.4")).1 = .exn ∧
    (upgrade_to_version failEnv ("11.2.4")).1 = false :=
  ⟨by decide, (upgrade_to_version_boolean_boundary failEnv ("11.2.4")).1 (by decide)⟩

/-- With a positive poll interval the pre-success clock advance is never
negative. -/
theorem preElapsed_nonneg (poll : Int) (hp : 1 ≤ poll) :
    ∀ k env, 0 ≤ preElapsed poll k env := by
  intro k
  induction k with
  | zero => intro env; simp [preElapsed]
  | succ k ih =>
    intro env
    have h1 := ih (fun n => env (n + 1))
    simp only [preElapsed]
    omega

/-- Characterization of the SSH waiter loop: with a positive poll interval
and fuel beyond the remaining time budget, the loop terminates, and it
answers `true` exactly when some attempt is the first full success and the
clock still sits below the timeout when that attempt starts. -/
theorem waitSshAux_spec (timeout poll : Int) (hp : 1 ≤ poll) :
    ∀ fuel (env : Nat → SshAttempt) (elapsed : Int),
      (timeout - elapsed).toNat < fuel →
      ∃ r, waitSshAux timeout poll fuel env elapsed = some r ∧
        (r.1 = true ↔ ∃ k, (env k).success = true ∧
          (∀ m, m < k → (env m).success = false) ∧
          elapsed + preElapsed poll k env < timeout) := by
  intro fuel
  induction fuel with
  | zero => intro env elapsed h; omega
  | succ fuel ih =>
    intro env elapsed hfuel
    by_cases he : elapsed < timeout
    · simp only [waitSshAux, if_pos he]
      by_cases hs : (env 0).success = true
      · rw [if_pos hs]
        refine ⟨(true, 1), rfl, ?_⟩
        constructor
        · intro _
          exact ⟨0, hs, fun m hm => absurd hm (Nat.not_lt_zero m), by
            simpa [preElapsed] using he⟩
        · intro _; rfl
      · rw [if_neg hs]
        have hs' : (env 0).success = false := by
          cases hsv : (env 0).success
          · rfl
          · exact absurd hsv hs
        have hfuel' :
            (timeout - (elapsed + ((env 0).dur : Int) + poll)).toNat < fuel := by
          omega
        obtain ⟨r, hr, hiff⟩ :=
          ih (fun n => env (n + 1)) (elapsed + ((env 0).dur : Int) + poll) hfuel'
        rw [hr]
        refine ⟨(r.1, r.2 + 1), rfl, ?_⟩
        rw [show ((r.1, r.2 + 1) : Bool × Nat).1 = r.1 from rfl, hiff]
        constructor
        · rintro ⟨k, h1, h2, h3⟩
          refine ⟨k + 1, h1, ?_, ?_⟩
          · intro m hm
            cases m with
            | zero => exact hs'
            | succ j => exact h2 j (by omega)
          · simp only [preElapsed]
            omega
        · rintro ⟨k, h1, h2, h3⟩
          cases k with
          | zero => exact absurd h1 (by simp [hs'])
          | succ j =>
            refine ⟨j, h1, fun m hm => h2 (m + 1) (by omega), ?_⟩
            simp only [preElapsed] at h3
            omega
    · simp only [waitSshAux, if_neg he]
      refine ⟨(false, 0), rfl, ?_⟩
      simp only [Bool.false_eq_true, false_iff]
      rintro ⟨k, _, _, h3⟩
      have := preElapsed_nonneg poll hp k env
      omega

/-- C7: with a positive poll interval the reachability waiter always
returns a boolean (failures at either probe layer never escape), and it
returns `true` exactly when some attempt is the first in which both the
TCP probe and the authenticated liveness check succeed, reached while the
elapsed time is still below the timeout; otherwise — the timeout elapsing
with no fully successful attempt — it returns `false`. -/
theorem wait_for_ssh_characterization (env : Nat → SshAttempt) (timeout poll : Int)
    (hp : 1 ≤ poll) :
    ∃ r, wait_for_ssh env timeout poll = some r ∧
      (r.1 = true ↔ ∃ k, (env k).success = true ∧
        (∀ m, m < k → (env m).success = false) ∧
        preElapsed poll k env < timeout) := by
  obtain ⟨r, hr, hiff⟩ :=
    waitSshAux_spec timeout poll hp (timeout.toNat + 1) env 0 (by omega)
  exact ⟨r, hr, by simpa using hiff⟩

/-- C7 witness: a host that answers both layers immediately. -/
theorem wait_for_ssh_characterization_witness :
    ∃ r, wait_for_ssh (fun _ => (⟨true, true, 0⟩ : SshAttempt)) 600 30 = some r ∧
      (r.1 = true ↔ ∃ k, ((fun _ => (⟨true, true, 0⟩ : SshAttempt)) k).success = true ∧
        (∀ m, m < k → ((fun _ => (⟨true, true, 0⟩ : SshAttempt)) m).success = false) ∧
        preElapsed 30 k (fun _ => (⟨true, true, 0⟩ : SshAttempt)) < 600) :=
  wait_for_ssh_characterization (fun _ => ⟨true, true, 0⟩) 600 30 (by decide)

/-- C10: `wait_for_reboot` always hands the SSH waiter exactly
`timeout - 60` (after its fixed 60 s settle sleep), so for any timeout of
at most 60 s the waiter's loop guard fails immediately: the result is
`false` with zero reachability probes made. -/
theorem wait_for_reboot_short_timeout (env : Nat → SshAttempt) (timeout : Int) :
    wait_for_reboot env timeout = wait_for_ssh env (timeout - 60) 30 ∧
    (timeout ≤ 60 → wait_for_reboot env timeout = some (false, 0)) := by
  refine ⟨rfl, ?_⟩
  intro h
  unfold wait_for_reboot wait_for_ssh
  simp only [waitSshAux]
  rw [if_neg (show ¬ ((0 : Int) < timeout - 60) by omega)]

/-- C10 witness: a 60 s budget yields `false` without a single probe, even
against a host that would answer immediately. -/
theorem wait_for_reboot_short_timeout_witness :
    wait_for_reboot (fun _ => (⟨true, true, 0⟩ : SshAttempt)) 60 = some (false, 0) :=
  (wait_for_reboot_short_timeout (fun _ => ⟨true, true, 0⟩) 60).2 (by decide)

/-- Everything kept by `takeWhile` satisfies the predicate. -/
theorem mem_takeWhile_pred (p : Char → Bool) :
    ∀ (l : List Char) (c : Char), c ∈ l.takeWhile p → p c = true := by
  intro l
  induction l with
  | nil => intro c h; simp [List.takeWhile] at h
  | cons a as ih =>
    intro c h
    cases hpa : p a
    · simp [List.takeWhile_cons, hpa] at h
    · simp [List.takeWhile_cons, hpa] at h
      rcases h with rfl | h
      · exact hpa
      · exact ih c h

/-- `takeWhile`/`dropWhile` split an all-satisfying prefix followed by a
failing element exactly at that element. -/
theorem takeWhile_all_append (p : Char → Bool) (y : Char) (hy : p y = false) :
    ∀ (a tail : List Char), (∀ c ∈ a, p c = true) →
      (a ++ y :: tail).takeWhile p = a ∧ (a ++ y :: tail).dropWhile p = y :: tail := by
  intro a
  induction a with
  | nil =>
    intro tail _
    constructor
    · simp [List.takeWhile_cons, hy]
    · simp [List.dropWhile_cons, hy]
  | cons c cs ih =>
    intro tail hall
    have hc : p c = true := hall c (List.mem_cons_self c cs)
    have hcs := ih tail (fun x hx => hall x (List.mem_cons_of_mem c hx))
    constructor
    · simp [List.takeWhile_cons, hc, hcs.1]
    · simp [List.dropWhile_cons, hc, hcs.2]

/-- The greedy `\d+.` step on a digit run followed by a dot consumes
exactly the run. -/
theorem takeNat_of_digits (a tail : List Char) (ha : a ≠ [])
    (hd : ∀ c ∈ a, c.isDigit = true) :
    takeNat (a ++ '.' :: tail) = some (digitsToNat a, '.' :: tail) := by
  obtain ⟨htw, hdw⟩ := takeWhile_all_append Char.isDigit '.' (by decide) a tail hd
  simp only [takeNat]
  rw [htw, hdw, if_neg ha]

/-- A nonempty digit run at the head makes the greedy `\d+` succeed. -/
theorem takeNat_isSome_of_digits (c rest : List Char) (hc : c ≠ [])
    (hd : ∀ x ∈ c, x.isDigit = true) :
    ∃ n r, takeNat (c ++ rest) = some (n, r) := by
  cases c with
  | nil => exact absurd rfl hc
  | cons ch cs =>
    have hch : ch.isDigit = true := hd ch (List.mem_cons_self ch cs)
    rcases htn : takeNat (ch :: cs ++ rest) with _ | ⟨pn, pr⟩
    · simp [takeNat, List.cons_append, List.takeWhile_cons, hch] at htn
    · exact ⟨pn, pr, rfl⟩

/-- Inversion of a successful greedy `\d+` step. -/
theorem takeNat_inv (l : List Char) (n : Nat) (r : List Char)
    (h : takeNat l = some (n, r)) :
    l.takeWhile Char.isDigit ≠ [] ∧ r = l.dropWhile Char.isDigit ∧
      l = l.takeWhile Char.isDigit ++ r ∧
      (∀ c ∈ l.takeWhile Char.isDigit, c.isDigit = true) := by
  simp only [takeNat] at h
  by_cases hds : l.takeWhile Char.isDigit = []
  · rw [if_pos hds] at h
    exact Option.noConfusion h
  · rw [if_neg hds] at h
    injection h with h'
    have hr : r = l.dropWhile Char.isDigit := (congrArg Prod.snd h').symm
    refine ⟨hds, hr, ?_, fun c hc => mem_takeWhile_pred Char.isDigit l c hc⟩
    rw [hr]
    exact (List.takeWhile_append_dropWhile Char.isDigit l).symm

/-- Soundness of the greedy matcher: a successful match of the anchored
triple exhibits the declarative decomposition. -/
theorem expectDot_dot (t : List Char) : expectDot ('.' :: t) = some t := by
  simp [expectDot]

/-- Inversion of a successful literal-dot step. -/
theorem expectDot_some_inv (l r : List Char) (h : expectDot l = some r) :
    l = '.' :: r := by
  cases l with
  | nil => exact Option.noConfusion h
  | cons d rest =>
    simp only [expectDot] at h
    by_cases hd : d = '.'
    · rw [if_pos hd] at h
      injection h with h'
      rw [hd, h']
    · rw [if_neg hd] at h
      exact Option.noConfusion h

/-- Soundness of the greedy matcher: a successful match of the anchored
triple exhibits the declarative decomposition. -/
theorem startsWithTriple_of_match (l : List Char) (x : Nat × Nat × Nat)
    (h : matchVersionTriple l = some x) : StartsWithTriple l := by
  unfold matchVersionTriple at h
  rcases heq1 : takeNat l with _ | ⟨a1, l1⟩
  · simp only [heq1] at h
    exact Option.noConfusion h
  · simp only [heq1] at h
    rcases heq2 : expectDot l1 with _ | l2
    · simp only [heq2] at h
      exact Option.noConfusion h
    · simp only [heq2] at h
      rcases heq3 : takeNat l2 with _ | ⟨b1, l3⟩
      · simp only [heq3] at h
        exact Option.noConfusion h
      · simp only [heq3] at h
        rcases heq4 : expectDot l3 with _ | l4
        · simp only [heq4] at h
          exact Option.noConfusion h
        · simp only [heq4] at h
          rcases heq5 : takeNat l4 with _ | ⟨c1, l5⟩
          · simp only [heq5] at h
            exact Option.noConfusion h
          · have hl1 : l1 = '.' :: l2 := expectDot_some_inv l1 l2 heq2
            have hl3 : l3 = '.' :: l4 := expectDot_some_inv l3 l4 heq4
            obtain ⟨hne1, hr1, hsplit1, hdg1⟩ := takeNat_inv l a1 l1 heq1
            obtain ⟨hne2, hr2, hsplit2, hdg2⟩ := takeNat_inv l2 b1 l3 heq3
            obtain ⟨hne3, hr3, hsplit3, hdg3⟩ := takeNat_inv l4 c1 l5 heq5
            have e3 : l4 = l4.takeWhile Char.isDigit ++ l4.dropWhile Char.isDigit :=
              (List.takeWhile_append_dropWhile Char.isDigit l4).symm
            have e2a : l2 = l2.takeWhile Char.isDigit ++ '.' :: l4 :=
              hsplit2.trans (congrArg (fun t => l2.takeWhile Char.isDigit ++ t) hl3)
            have e2 : l2 = l2.takeWhile Char.isDigit ++
                '.' :: (l4.takeWhile Char.isDigit ++ l4.dropWhile Char.isDigit) :=
              e2a.trans (congrArg
                (fun t => l2.takeWhile Char.isDigit ++ '.' :: t) e3)
            have e1 : l = l.takeWhile Char.isDigit ++ '.' :: l2 :=
              hsplit1.trans (congrArg (fun t => l.takeWhile Char.isDigit ++ t) hl1)
            exact ⟨l.takeWhile Char.isDigit, l2.takeWhile Char.isDigit,
              l4.takeWhile Char.isDigit, l4.dropWhile Char.isDigit,
              hne1, hne2, hne3, hdg1, hdg2, hdg3,
              e1.trans (congrArg
                (fun t => l.takeWhile Char.isDigit ++ '.' :: t) e2)⟩

/-- Completeness of the greedy matcher: any declarative decomposition
makes the anchored triple match succeed. -/
theorem match_isSome_of_startsWithTriple (l : List Char) (h : StartsWithTriple l) :
    ∃ x, matchVersionTriple l = some x := by
  obtain ⟨a, b, c, rest, ha, hb, hc, hda, hdb, hdc, rfl⟩ := h
  obtain ⟨n3, r3, h3⟩ := takeNat_isSome_of_digits c rest hc hdc
  refine ⟨(digitsToNat a, digitsToNat b, n3), ?_⟩
  unfold matchVersionTriple
  simp only [takeNat_of_digits a (b ++ '.' :: (c ++ rest)) ha hda, expectDot_dot,
    takeNat_of_digits b (c ++ rest) hb hdb, h3]

/-- C9: `Version.parse` fails exactly when the input, trimmed of
whitespace and of one trailing `-h<digits>` suffix, does not begin with
three dot-separated all-digit components; trailing characters after the
third component are ignored, so `10.2.4beta` parses to `(10, 2, 4)`. -/
theorem parse_invalid_iff :
    (∀ s : String, Version.parse s = none ↔
      ¬ StartsWithTriple (stripHotfix (pyStrip s.toList))) ∧
    Version.parse ("10.2.4beta") = some ⟨10, 2, 4⟩ := by
  constructor
  · intro s
    unfold Version.parse
    constructor
    · intro hnone hsw
      obtain ⟨x, hx⟩ := match_isSome_of_startsWithTriple _ hsw
      obtain ⟨xa, xb, xc⟩ := x
      simp only [hx] at hnone
      exact Option.noConfusion hnone
    · intro hnsw
      rcases hm : matchVersionTriple (stripHotfix (pyStrip s.toList)) with _ | x
      · simp [hm]
      · exact absurd (startsWithTriple_of_match _ x hm) hnsw
  · decide

end PASSH
